import Mathlib

/-!
# go-kit `task`: decorators around a cancellable unit of work

A shallow embedding of `src/task/task.go`.

* A Go `func(context.Context) error` closure is a state transformer on a
  `World`: the logical clock, the state the caller's closures close over, and
  a trace of the calls that are observed.  `nil` is `none`.
* `context.Context` is reduced to what the package reads from it: the instant
  at which `Done()` is closed and the value `Err()` reports from then on.
* Instants and `time.Duration` values are integers (nanoseconds).
* The `for` loop of `retry` is a structural recursion on the number of
  iterations that remain.
* The `select` of `timeout` takes the case that is ready first, counted from
  the instant the `select` is reached; when both are ready at once the choice
  is the scheduler's.
-/

namespace GoKit

/-! ## Values -/

/-- Go `error` values the package produces or passes on. -/
inductive Error where
  /-- Value of `context.Canceled`. -/
  | canceled
  /-- Value of `context.DeadlineExceeded`. -/
  | deadlineExceeded
  /-- Value of `errors.New("task timeout")`. -/
  | taskTimeout
  /-- Error returned by `AddFunc` for an expression the cron parser rejects. -/
  | scheduleParse
  /-- Any error of the caller's own task. -/
  | app (code : Nat)
  deriving DecidableEq, Repr

/-- Calls that are observed while a chain runs. -/
inductive Event where
  /-- The base unit of work was entered. -/
  | invoke
  /-- The backoff function was called with this attempt index. -/
  | backoff (attempt : Int)
  /-- Call `time.Sleep(d)`. -/
  | slept (d : Int)
  /-- The success hook was called. -/
  | success
  /-- The failure hook was called with this error. -/
  | failure (e : Error)
  deriving DecidableEq, Repr

/-- The state a run threads through: the clock, the state closed over by the
caller's closures, the observed calls, and the choice a `select` makes at an
instant at which both of its cases are ready. -/
structure World (σ : Type) where
  now : Int
  user : σ
  trace : List Event
  coin : Int → Bool

/-- A `context.Context`: `doneAt` is the instant at which `Done()` is closed
(`none`: never), `cause` is what `Err()` reports once it is. -/
structure Context where
  doneAt : Option Int
  cause : Error
  deriving DecidableEq, Repr

/-- Whether `<-ctx.Done()` is ready at instant `now`. -/
def Context.isDone (ctx : Context) (now : Int) : Bool :=
  match ctx.doneAt with
  | some t => decide (t ≤ now)
  | none => false

/-- Go `ctx.Err()`: `nil` until `Done()` is closed, the cause afterwards. -/
def Context.Err (ctx : Context) (now : Int) : Option Error :=
  if ctx.isDone now then some ctx.cause else none

/-- Go `context.Background()`. -/
def Background : Context := ⟨none, Error.canceled⟩

/-- Go `context.WithTimeout(parent, dur)` called at instant `now`: done at the
deadline `now + dur` or when the parent is, whichever comes first. -/
def WithTimeout (parent : Context) (now dur : Int) : Context :=
  match parent.doneAt with
  | some t =>
    if t ≤ now + dur then ⟨some t, parent.cause⟩
    else ⟨some (now + dur), Error.deadlineExceeded⟩
  | none => ⟨some (now + dur), Error.deadlineExceeded⟩

/-- Go `time.Sleep(d)`: the clock advances by `d` when `d` is positive. -/
def Sleep {σ : Type} (d : Int) (w : World σ) : World σ :=
  { w with now := w.now + max d 0, trace := w.trace ++ [Event.slept d] }

/-! ## `task.go` -/

/-- Go `type TaskFunc func(context.Context) error`. -/
abbrev TaskFunc (σ : Type) := Context → World σ → Option Error × World σ

/-- Go `backoff func(int) time.Duration`. -/
abbrev BackoffFunc (σ : Type) := Int → World σ → Int × World σ

/-- Go `condition func(error) bool`. -/
abbrev ConditionFunc (σ : Type) := Error → World σ → Bool × World σ

/-- The body of the `for i := 0; i < retryCount; i++` loop of `retry`, with
`n = retryCount - i` iterations still to go and `err` the loop variable. -/
def retryLoop {σ : Type} (task : TaskFunc σ) (backoff : BackoffFunc σ)
    (condition : ConditionFunc σ) (ctx : Context) :
    Nat → Int → Option Error → World σ → Option Error × World σ
  | 0, _, err, w => (err, w)
  | n + 1, i, _, w =>
    if ctx.isDone w.now then (ctx.Err w.now, w)
    else
      match task ctx w with
      | (none, w1) => (none, w1)
      | (some e, w1) =>
        match condition e w1 with
        | (false, w2) => (some e, w2)
        | (true, w2) =>
          match backoff i w2 with
          | (d, w3) => retryLoop task backoff condition ctx n (i + 1) (some e) (Sleep d w3)

/-- Go `retry(task, retryCount, backoff, condition)`. -/
def retry {σ : Type} (task : TaskFunc σ) (retryCount : Int) (backoff : BackoffFunc σ)
    (condition : ConditionFunc σ) : TaskFunc σ :=
  fun ctx w => retryLoop task backoff condition ctx retryCount.toNat 0 none w

/-- Go `timeout(task, dur)`.  The goroutine runs `task` with the derived
context; its effects land, and its send on `done` is ready, at the instant of
the world it returns.  The `select` is reached at `w.now`, so `<-ctx.Done()`
can be taken from `max w.now td` on.  The case that is ready first is taken;
when both are ready at the same instant the choice is `w.coin`.  When the
derived context wins before the unit has completed, the caller resumes at
that instant and the goroutine is left running: its effects are not part of
the world returned. -/
def timeout {σ : Type} (task : TaskFunc σ) (dur : Int) : TaskFunc σ :=
  fun ctx w =>
    let ctx1 := WithTimeout ctx w.now dur
    let r := task ctx1 w
    match ctx1.doneAt with
    | none => r
    | some td =>
      if r.2.now < max w.now td then r
      else if max w.now td < r.2.now then (some Error.taskTimeout, { w with now := max w.now td })
      else if w.coin (max w.now td) then r
      else (some Error.taskTimeout, r.2)

/-- Go `withCompletion(task, onSuccess, onFailure)`; a `nil` hook is `none`. -/
def withCompletion {σ : Type} (task : TaskFunc σ) (onSuccess : Option (World σ → World σ))
    (onFailure : Option (Error → World σ → World σ)) : TaskFunc σ :=
  fun ctx w =>
    match task ctx w with
    | (some e, w1) =>
      match onFailure with
      | some f => (some e, f e w1)
      | none => (some e, w1)
    | (none, w1) =>
      match onSuccess with
      | some s => (none, s w1)
      | none => (none, w1)

/-! ## The scheduler engine -/

/-- Modelled from the spec: a schedule of the external cron engine, kept as
the fields of the expression it was parsed from. -/
structure Schedule where
  fields : List (List Char)
  deriving DecidableEq, Repr

/-- Modelled from the spec: the states of a scheduler handle,
`Unstarted → Running → Stopped`. -/
inductive CronState where
  | unstarted
  | running
  | stopped
  deriving DecidableEq, Repr

/-- Modelled from the spec: an entry of the external cron engine, a schedule
and the function the trigger loop calls. -/
structure Entry (σ : Type) where
  schedule : Schedule
  job : World σ → World σ

/-- Modelled from the spec: the scheduler handle of the external cron engine
(`*cron.Cron`), which is not part of the repository.  It owns the registered
entries and has the states `Unstarted → Running → Stopped`. -/
structure Cron (σ : Type) where
  state : CronState
  entries : List (Entry σ)

/-- Modelled from the spec: `cron.New(...)` of the external engine, a fresh
handle that is not started and has no entries. -/
def Cron.New {σ : Type} : Cron σ := ⟨CronState.unstarted, []⟩

/-- Modelled from the spec: `(*Cron).AddFunc` of the external engine. The
expression is parsed eagerly; a rejected expression registers nothing. -/
def Cron.AddFunc {σ : Type} (parse : String → Except Error Schedule) (c : Cron σ)
    (spec : String) (cmd : World σ → World σ) : Except Error (Cron σ) :=
  match parse spec with
  | Except.error e => Except.error e
  | Except.ok s => Except.ok { c with entries := c.entries ++ [⟨s, cmd⟩] }

/-- Modelled from the spec: `(*Cron).Start` of the external engine. A handle
that was never started begins to run; `Stopped` is terminal. -/
def Cron.Start {σ : Type} (c : Cron σ) : Cron σ :=
  match c.state with
  | CronState.unstarted => { c with state := CronState.running }
  | _ => c

/-- Modelled from the spec: `(*Cron).Stop` of the external engine. A running
handle stops; any other handle is left as it is. -/
def Cron.Stop {σ : Type} (c : Cron σ) : Cron σ :=
  match c.state with
  | CronState.running => { c with state := CronState.stopped }
  | _ => c

/-- Modelled from the spec: one pass of the trigger loop of the external
engine at an instant at which every entry is due. Only a running handle calls
its jobs. -/
def Cron.trigger {σ : Type} (c : Cron σ) (w : World σ) : World σ :=
  match c.state with
  | CronState.running => c.entries.foldl (fun acc e => e.job acc) w
  | _ => w

/-- Modelled from the spec: the whitespace-separated fields of a schedule
expression; `cur` is the field being read, in reverse. -/
def splitFields : List Char → List Char → List (List Char)
  | [], cur => if cur = [] then [] else [cur.reverse]
  | c :: cs, cur =>
    if c = ' ' ∨ c = '\t' ∨ c = '\n' ∨ c = '\r' then
      (if cur = [] then splitFields cs [] else cur.reverse :: splitFields cs [])
    else splitFields cs (c :: cur)

/-- Modelled from the spec: the parser of the external cron engine as
configured by `cron.WithSeconds()`, which is not part of the repository. An
expression is a six-field cron string (seconds, minutes, hours, day-of-month,
month, day-of-week); `fieldOk k f` is the engine's check of field `k`. -/
def parseSixField (fieldOk : Nat → List Char → Bool) (spec : String) : Except Error Schedule :=
  let fs := splitFields spec.data []
  if fs.length = 6 ∧ (fs.enum.all fun p => fieldOk p.1 p.2) = true then Except.ok ⟨fs⟩
  else Except.error Error.scheduleParse

/-! ## The chain -/

/-- Go `type Task struct { taskFunc TaskFunc; cron *cron.Cron }`. -/
structure Task (σ : Type) where
  taskFunc : TaskFunc σ
  cron : Option (Cron σ)

/-- Go `NewTask(task)`. -/
def NewTask {σ : Type} (task : TaskFunc σ) : Task σ := ⟨task, none⟩

/-- Go `(*Task).Retry`. -/
def Task.Retry {σ : Type} (t : Task σ) (retryCount : Int) (backoff : BackoffFunc σ)
    (condition : ConditionFunc σ) : Task σ :=
  ⟨retry t.taskFunc retryCount backoff condition, none⟩

/-- Go `(*Task).Timeout`. -/
def Task.Timeout {σ : Type} (t : Task σ) (dur : Int) : Task σ :=
  ⟨timeout t.taskFunc dur, none⟩

/-- Go `(*Task).WithCompletion`. -/
def Task.WithCompletion {σ : Type} (t : Task σ) (onSuccess : Option (World σ → World σ))
    (onFailure : Option (Error → World σ → World σ)) : Task σ :=
  ⟨withCompletion t.taskFunc onSuccess onFailure, none⟩

/-- Go `(*Task).Run`. -/
def Task.Run {σ : Type} (t : Task σ) (ctx : Context) (w : World σ) : Option Error × World σ :=
  t.taskFunc ctx w

/-- What a call of `RunWithCron` leaves behind: the error it returns, the
receiver with its `cron` field, and the context the goroutine it launched
waits on (`none`: no goroutine was launched). -/
structure CronRun (σ : Type) where
  err : Option Error
  task : Task σ
  watcher : Option Context

/-- Go `(*Task).RunWithCron`; `parse` is the parser of the engine built by
`cron.New(cron.WithSeconds())`. -/
def Task.RunWithCron {σ : Type} (parse : String → Except Error Schedule) (t : Task σ)
    (ctx : Context) (cronExpr : String) : CronRun σ :=
  let c : Cron σ := Cron.New
  match c.AddFunc parse cronExpr (fun w => (t.taskFunc ctx w).2) with
  | Except.error e => ⟨some e, { t with cron := some c }, none⟩
  | Except.ok c1 => ⟨none, { t with cron := some c1.Start }, some ctx⟩

/-- Go `(*Task).StopCron`. -/
def Task.StopCron {σ : Type} (t : Task σ) : Task σ :=
  match t.cron with
  | some c => { t with cron := some c.Stop }
  | none => t

/-- One pass of the trigger loop of the chain's scheduler, if it has one. -/
def Task.trigger {σ : Type} (t : Task σ) (w : World σ) : World σ :=
  match t.cron with
  | some c => c.trigger w
  | none => w

/-- Whether the chain holds a scheduler handle in the `Running` state. -/
def Task.cronRunning {σ : Type} (t : Task σ) : Bool :=
  match t.cron with
  | some c => decide (c.state = CronState.running)
  | none => false

/-! ## Observed callbacks -/

/-- A caller's unit of work: from the context, the instant it starts at and the
state it closes over, its result, the new state and the time it takes. -/
abbrev Body (σ : Type) := Context → Int → σ → Option Error × σ × Nat

/-- The `TaskFunc` of a body; each call is recorded in the trace. -/
def tracedTask {σ : Type} (u : Body σ) : TaskFunc σ :=
  fun ctx w =>
    let r := u ctx w.now w.user
    (r.1, { w with now := w.now + r.2.2, user := r.2.1, trace := w.trace ++ [Event.invoke] })

/-- A backoff function without effects; each call is recorded in the trace. -/
def tracedBackoff {σ : Type} (b : Int → Int) : BackoffFunc σ :=
  fun i w => (b i, { w with trace := w.trace ++ [Event.backoff i] })

/-- A retry condition without effects. -/
def pureCondition {σ : Type} (c : Error → Bool) : ConditionFunc σ :=
  fun e w => (c e, w)

/-- A success hook acting on the caller's state; each call is recorded. -/
def tracedSuccess {σ : Type} (s : σ → σ) : World σ → World σ :=
  fun w => { w with user := s w.user, trace := w.trace ++ [Event.success] }

/-- A failure hook acting on the caller's state; each call is recorded. -/
def tracedFailure {σ : Type} (f : Error → σ → σ) : Error → World σ → World σ :=
  fun e w => { w with user := f e w.user, trace := w.trace ++ [Event.failure e] }

/-- Number of times the base unit was entered. -/
def invocations (tr : List Event) : Nat := tr.count Event.invoke

/-- The attempt indices the backoff function was called with, in order. -/
def backoffCalls : List Event → List Int
  | [] => []
  | Event.backoff i :: tr => i :: backoffCalls tr
  | _ :: tr => backoffCalls tr

/-- The durations `time.Sleep` was called with, in order. -/
def sleeps : List Event → List Int
  | [] => []
  | Event.slept d :: tr => d :: sleeps tr
  | _ :: tr => sleeps tr

/-- The errors the failure hook was called with, in order. -/
def failureCalls : List Event → List Error
  | [] => []
  | Event.failure e :: tr => e :: failureCalls tr
  | _ :: tr => failureCalls tr

/-! ## The attempts of a retry loop -/

/-- The world in which the next attempt starts, when the attempt with index
`i` starts in `w` and fails with an error that is retried. -/
def retryStep {σ : Type} (task : TaskFunc σ) (backoff : BackoffFunc σ)
    (condition : ConditionFunc σ) (ctx : Context) (i : Int) (w : World σ) : World σ :=
  match task ctx w with
  | (none, w1) => w1
  | (some e, w1) =>
    let w2 := (condition e w1).2
    let r := backoff i w2
    Sleep r.1 r.2

/-- The world in which attempt `k` starts, when every earlier attempt failed
with an error that is retried. -/
def attemptStart {σ : Type} (task : TaskFunc σ) (backoff : BackoffFunc σ)
    (condition : ConditionFunc σ) (ctx : Context) (w0 : World σ) : Nat → World σ
  | 0 => w0
  | k + 1 => retryStep task backoff condition ctx (k : Int)
      (attemptStart task backoff condition ctx w0 k)

/-- Whether an attempt started in `w` fails with an error that is retried. -/
def retryable {σ : Type} (task : TaskFunc σ) (condition : ConditionFunc σ) (ctx : Context)
    (w : World σ) : Bool :=
  match task ctx w with
  | (none, _) => false
  | (some e, w1) => (condition e w1).1

/-- The value of the loop variable `err` when attempt `k` starts. -/
def lastErr {σ : Type} (task : TaskFunc σ) (backoff : BackoffFunc σ)
    (condition : ConditionFunc σ) (ctx : Context) (w0 : World σ) : Nat → Option Error
  | 0 => none
  | k + 1 => (task ctx (attemptStart task backoff condition ctx w0 k)).1

/-- The world in which an attempt that started in `w` leaves the loop, when it
succeeds or fails with an error that is not retried. -/
def attemptEnd {σ : Type} (task : TaskFunc σ) (condition : ConditionFunc σ) (ctx : Context)
    (w : World σ) : World σ :=
  match task ctx w with
  | (none, w1) => w1
  | (some e, w1) => (condition e w1).2

/-- The calls observed during the first `k` attempts of a retry loop over an
observed body, when each of them fails with an error that is retried: the
attempt, the call of the backoff function with its index, the sleep. -/
def rounds (b : Int → Int) : Nat → List Event
  | 0 => []
  | k + 1 => rounds b k ++ [Event.invoke, Event.backoff (k : Int), Event.slept (b (k : Int))]

/-! ## Sequences of chain methods -/

/-- One call of a chain method, with its arguments. -/
inductive Decorator (σ : Type) where
  | timeout (dur : Int)
  | retry (retryCount : Int) (backoff : BackoffFunc σ) (condition : ConditionFunc σ)
  | completion (onSuccess : Option (World σ → World σ))
      (onFailure : Option (Error → World σ → World σ))

/-- The decorator of `task.go` that the chain method applies. -/
def Decorator.wrap {σ : Type} : Decorator σ → TaskFunc σ → TaskFunc σ
  | Decorator.timeout dur, f => GoKit.timeout f dur
  | Decorator.retry n b c, f => GoKit.retry f n b c
  | Decorator.completion s g, f => GoKit.withCompletion f s g

/-- The chain method called on `t`. -/
def Task.apply {σ : Type} (t : Task σ) : Decorator σ → Task σ
  | Decorator.timeout dur => t.Timeout dur
  | Decorator.retry n b c => t.Retry n b c
  | Decorator.completion s g => t.WithCompletion s g

/-- The decorators nested around `u` in the order of the list, the last one
outermost. -/
def nest {σ : Type} (u : TaskFunc σ) : List (Decorator σ) → TaskFunc σ
  | [] => u
  | d :: ds => nest (d.wrap u) ds

/-! ## Concrete inputs -/

/-- A world at instant `0` with a counter as the caller's state. -/
def exWorld : World Nat := ⟨0, 0, [], fun _ => true⟩

/-- A body that fails with `app 1` on its first two calls and then succeeds;
each call takes 5. -/
def exFlaky : Body Nat :=
  fun _ _ s => (if s < 2 then some (Error.app 1) else none, s + 1, 5)

/-- A body that fails on every call, with the number of the call as the error
code; each call takes 5. -/
def exFailing : Body Nat := fun _ _ s => (some (Error.app s), s + 1, 5)

/-- A body that succeeds after 100. -/
def exSlow : Body Nat := fun _ _ s => (none, s + 1, 100)

/-- A body that succeeds at once. -/
def exQuick : Body Nat := fun _ _ s => (none, s + 1, 0)

/-- A backoff function: ten times the attempt index. -/
def exBackoff : Int → Int := fun i => 10 * i

/-- A retry condition that retries every error. -/
def exAlways : Error → Bool := fun _ => true

/-- A retry condition that retries every error but `app 1`. -/
def exNotOne : Error → Bool := fun e => decide (e ≠ Error.app 1)

/-- A context cancelled at instant `0`. -/
def exCancelledAt0 : Context := ⟨some 0, Error.canceled⟩

/-- A context cancelled at instant `12`. -/
def exCancelledAt12 : Context := ⟨some 12, Error.canceled⟩

/-- A field check that accepts every field. -/
def exAnyField : Nat → List Char → Bool := fun _ _ => true

/-- A field check that accepts only the wildcard `*`. -/
def exStarField : Nat → List Char → Bool := fun _ f => decide (f = ['*'])

/-! ## The retry loop, one iteration at a time -/

section RetryLoop

variable {σ : Type} (task : TaskFunc σ) (backoff : BackoffFunc σ) (condition : ConditionFunc σ)
  (ctx : Context)

theorem retryLoop_done (n : Nat) (i : Int) (err : Option Error) (w : World σ)
    (hd : ctx.isDone w.now = true) :
    retryLoop task backoff condition ctx (n + 1) i err w = (some ctx.cause, w) := by
  simp [retryLoop, Context.Err, hd]

theorem retryLoop_stop (n : Nat) (i : Int) (err : Option Error) (w : World σ)
    (hd : ctx.isDone w.now = false) (hr : retryable task condition ctx w = false) :
    retryLoop task backoff condition ctx (n + 1) i err w
      = ((task ctx w).1, attemptEnd task condition ctx w) := by
  rcases ht : task ctx w with ⟨_ | e, w1⟩
  · simp [retryLoop, attemptEnd, hd, ht]
  · rcases hc : condition e w1 with ⟨_ | _, w2⟩
    · simp [retryLoop, attemptEnd, hd, ht, hc]
    · simp [retryable, ht, hc] at hr

theorem retryLoop_again (n : Nat) (i : Int) (err : Option Error) (w : World σ)
    (hd : ctx.isDone w.now = false) (hr : retryable task condition ctx w = true) :
    retryLoop task backoff condition ctx (n + 1) i err w
      = retryLoop task backoff condition ctx n (i + 1) (task ctx w).1
          (retryStep task backoff condition ctx i w) := by
  rcases ht : task ctx w with ⟨_ | e, w1⟩
  · simp [retryable, ht] at hr
  · rcases hc : condition e w1 with ⟨_ | _, w2⟩
    · simp [retryable, ht, hc] at hr
    · simp [retryLoop, retryStep, hd, ht, hc]

theorem retryLoop_unroll (w0 : World σ) (k : Nat)
    (h : ∀ i, i < k →
      ctx.isDone (attemptStart task backoff condition ctx w0 i).now = false ∧
      retryable task condition ctx (attemptStart task backoff condition ctx w0 i) = true)
    (m : Nat) :
    retryLoop task backoff condition ctx (k + m) 0 none w0
      = retryLoop task backoff condition ctx m (k : Int)
          (lastErr task backoff condition ctx w0 k)
          (attemptStart task backoff condition ctx w0 k) := by
  induction k generalizing m with
  | zero => simp [lastErr, attemptStart]
  | succ k ih =>
    have hk := h k (Nat.lt_succ_self k)
    have h1 := ih (fun i hi => h i (Nat.lt_succ_of_lt hi)) (m + 1)
    have e1 : k + 1 + m = k + (m + 1) := by omega
    rw [e1, h1, retryLoop_again task backoff condition ctx m (k : Int) _ _ hk.1 hk.2]
    simp [lastErr, attemptStart]

end RetryLoop

/-! ## Reading the trace -/

theorem invocations_append (a b : List Event) :
    invocations (a ++ b) = invocations a + invocations b := by
  simp [invocations]

theorem backoffCalls_append (a b : List Event) :
    backoffCalls (a ++ b) = backoffCalls a ++ backoffCalls b := by
  induction a with
  | nil => rfl
  | cons x a ih => cases x <;> simp [backoffCalls, ih]

theorem sleeps_append (a b : List Event) : sleeps (a ++ b) = sleeps a ++ sleeps b := by
  induction a with
  | nil => rfl
  | cons x a ih => cases x <;> simp [sleeps, ih]

theorem failureCalls_append (a b : List Event) :
    failureCalls (a ++ b) = failureCalls a ++ failureCalls b := by
  induction a with
  | nil => rfl
  | cons x a ih => cases x <;> simp [failureCalls, ih]

theorem invocations_rounds (b : Int → Int) (k : Nat) : invocations (rounds b k) = k := by
  induction k with
  | zero => rfl
  | succ k ih =>
    rw [rounds, invocations_append, ih]
    simp [invocations]

theorem backoffCalls_rounds (b : Int → Int) (k : Nat) :
    backoffCalls (rounds b k) = (List.range k).map fun i => (i : Int) := by
  induction k with
  | zero => rfl
  | succ k ih => simp [rounds, backoffCalls_append, ih, backoffCalls, List.range_succ]

theorem sleeps_rounds (b : Int → Int) (k : Nat) :
    sleeps (rounds b k) = (List.range k).map fun i => b (i : Int) := by
  induction k with
  | zero => rfl
  | succ k ih => simp [rounds, sleeps_append, ih, sleeps, List.range_succ]

theorem failureCalls_rounds (b : Int → Int) (k : Nat) : failureCalls (rounds b k) = [] := by
  induction k with
  | zero => rfl
  | succ k ih => simp [rounds, failureCalls_append, ih, failureCalls]

/-! ## A retry loop over an observed body -/

section Observed

variable {σ : Type} (u : Body σ) (b : Int → Int) (c : Error → Bool) (ctx : Context)

theorem tracedTask_trace (w : World σ) :
    (tracedTask u ctx w).2.trace = w.trace ++ [Event.invoke] := rfl

theorem attemptEnd_traced (w : World σ) :
    attemptEnd (tracedTask u) (pureCondition c) ctx w = (tracedTask u ctx w).2 := by
  rcases h : tracedTask u ctx w with ⟨_ | e, w1⟩ <;> simp [attemptEnd, pureCondition, h]

theorem retryStep_trace (i : Int) (w : World σ)
    (hr : retryable (tracedTask u) (pureCondition c) ctx w = true) :
    (retryStep (tracedTask u) (tracedBackoff b) (pureCondition c) ctx i w).trace
      = w.trace ++ [Event.invoke, Event.backoff i, Event.slept (b i)] := by
  rcases h : (u ctx w.now w.user).1 with _ | e
  · simp [retryable, tracedTask, h] at hr
  · simp [retryStep, tracedTask, tracedBackoff, pureCondition, Sleep, h]

theorem attemptStart_trace (w0 : World σ) (k : Nat)
    (h : ∀ i, i < k → retryable (tracedTask u) (pureCondition c) ctx
      (attemptStart (tracedTask u) (tracedBackoff b) (pureCondition c) ctx w0 i) = true) :
    (attemptStart (tracedTask u) (tracedBackoff b) (pureCondition c) ctx w0 k).trace
      = w0.trace ++ rounds b k := by
  induction k with
  | zero => simp [attemptStart, rounds]
  | succ k ih =>
    rw [attemptStart, retryStep_trace u b c ctx _ _ (h k (Nat.lt_succ_self k)),
      ih (fun i hi => h i (Nat.lt_succ_of_lt hi))]
    simp [rounds]

end Observed

/-! ## The three ways out of the retry loop -/

section RetryRun

variable {σ : Type} (task : TaskFunc σ) (backoff : BackoffFunc σ) (condition : ConditionFunc σ)
  (retryCount : Int) (ctx : Context) (w0 : World σ)

theorem retry_run_eq :
    ((NewTask task).Retry retryCount backoff condition).Run ctx w0
      = retryLoop task backoff condition ctx retryCount.toNat 0 none w0 := rfl

theorem retry_run_stops (j : Nat) (hj : (j : Int) < retryCount)
    (hprev : ∀ i, i < j →
      ctx.isDone (attemptStart task backoff condition ctx w0 i).now = false ∧
      retryable task condition ctx (attemptStart task backoff condition ctx w0 i) = true)
    (hd : ctx.isDone (attemptStart task backoff condition ctx w0 j).now = false)
    (hstop : retryable task condition ctx (attemptStart task backoff condition ctx w0 j) = false) :
    ((NewTask task).Retry retryCount backoff condition).Run ctx w0
      = ((task ctx (attemptStart task backoff condition ctx w0 j)).1,
          attemptEnd task condition ctx (attemptStart task backoff condition ctx w0 j)) := by
  obtain ⟨m, hm⟩ : ∃ m, retryCount.toNat = j + (m + 1) := ⟨retryCount.toNat - j - 1, by omega⟩
  rw [retry_run_eq, hm, retryLoop_unroll task backoff condition ctx w0 j hprev (m + 1),
    retryLoop_stop task backoff condition ctx m _ _ _ hd hstop]

theorem retry_run_cancelled (k : Nat) (hk : (k : Int) < retryCount)
    (hprev : ∀ i, i < k →
      ctx.isDone (attemptStart task backoff condition ctx w0 i).now = false ∧
      retryable task condition ctx (attemptStart task backoff condition ctx w0 i) = true)
    (hd : ctx.isDone (attemptStart task backoff condition ctx w0 k).now = true) :
    ((NewTask task).Retry retryCount backoff condition).Run ctx w0
      = (some ctx.cause, attemptStart task backoff condition ctx w0 k) := by
  obtain ⟨m, hm⟩ : ∃ m, retryCount.toNat = k + (m + 1) := ⟨retryCount.toNat - k - 1, by omega⟩
  rw [retry_run_eq, hm, retryLoop_unroll task backoff condition ctx w0 k hprev (m + 1),
    retryLoop_done task backoff condition ctx m _ _ _ hd]

theorem retry_run_exhausts
    (hall : ∀ i, i < retryCount.toNat →
      ctx.isDone (attemptStart task backoff condition ctx w0 i).now = false ∧
      retryable task condition ctx (attemptStart task backoff condition ctx w0 i) = true) :
    ((NewTask task).Retry retryCount backoff condition).Run ctx w0
      = (lastErr task backoff condition ctx w0 retryCount.toNat,
          attemptStart task backoff condition ctx w0 retryCount.toNat) := by
  have h := retryLoop_unroll task backoff condition ctx w0 retryCount.toNat hall 0
  rw [Nat.add_zero] at h
  rw [retry_run_eq, h]
  rfl

theorem lastErr_succ_ne_none (n : Nat)
    (h : retryable task condition ctx (attemptStart task backoff condition ctx w0 n) = true) :
    lastErr task backoff condition ctx w0 (n + 1) ≠ none := by
  show (task ctx (attemptStart task backoff condition ctx w0 n)).1 ≠ none
  intro h0
  rcases ht : task ctx (attemptStart task backoff condition ctx w0 n) with ⟨_ | e, w1⟩
  · simp [retryable, ht] at h
  · simp [ht] at h0

end RetryRun

theorem isDone_of_never (ctx : Context) (h : ctx.doneAt = none) (t : Int) :
    ctx.isDone t = false := by
  simp [Context.isDone, h]

theorem invocations_invoke : invocations [Event.invoke] = 1 := rfl

/-! ## The retry decorator -/

/-- C1: under a context that is never cancelled, `Run` of
`NewTask(task).Retry(maxAttempts, backoff, cond)` stops at the least attempt
`j < maxAttempts` that succeeds or fails with an error `cond` rejects: it
returns the result of that attempt and the task was invoked `j + 1` times. If
every attempt below `maxAttempts` fails with an error that is retried, the
task is invoked `maxAttempts` times and `Run` returns the error of the last
attempt. For `maxAttempts ≤ 0` the task is not invoked and `Run` returns no
error. -/
theorem retry_run_attempts {σ : Type} (u : Body σ) (b : Int → Int) (c : Error → Bool)
    (maxAttempts : Int) (ctx : Context) (hctx : ctx.doneAt = none) (w0 : World σ) :
    let run := ((NewTask (tracedTask u)).Retry maxAttempts (tracedBackoff b)
      (pureCondition c)).Run ctx w0
    let start := attemptStart (tracedTask u) (tracedBackoff b) (pureCondition c) ctx w0
    let again := fun k => retryable (tracedTask u) (pureCondition c) ctx (start k)
    (∀ j : Nat, (j : Int) < maxAttempts → (∀ i, i < j → again i = true) → again j = false →
        run = tracedTask u ctx (start j) ∧
        invocations run.2.trace = invocations w0.trace + (j + 1)) ∧
    ((∀ i : Nat, (i : Int) < maxAttempts → again i = true) →
        (0 < maxAttempts → run.1 = (tracedTask u ctx (start (maxAttempts.toNat - 1))).1 ∧
          run.1 ≠ none) ∧
        invocations run.2.trace = invocations w0.trace + maxAttempts.toNat) ∧
    (maxAttempts ≤ 0 → run = (none, w0) ∧ invocations run.2.trace = invocations w0.trace) := by
  intro run start again
  have hnd : ∀ t, ctx.isDone t = false := isDone_of_never ctx hctx
  refine ⟨?_, ?_, ?_⟩
  · intro j hj hprev hstop
    have hrun : run = tracedTask u ctx (start j) := by
      show ((NewTask (tracedTask u)).Retry maxAttempts (tracedBackoff b)
        (pureCondition c)).Run ctx w0 = _
      rw [retry_run_stops _ _ _ maxAttempts ctx w0 j hj (fun i hi => ⟨hnd _, hprev i hi⟩)
        (hnd _) hstop, attemptEnd_traced]
    refine ⟨hrun, ?_⟩
    rw [hrun, tracedTask_trace]
    show invocations ((start j).trace ++ _) = _
    rw [attemptStart_trace u b c ctx w0 j hprev, invocations_append, invocations_append,
      invocations_rounds, invocations_invoke, Nat.add_assoc]
  · intro hall
    have hprev : ∀ i, i < maxAttempts.toNat → again i = true := fun i hi => hall i (by omega)
    have hrun : run = (lastErr (tracedTask u) (tracedBackoff b) (pureCondition c) ctx w0
        maxAttempts.toNat, start maxAttempts.toNat) :=
      retry_run_exhausts _ _ _ maxAttempts ctx w0 (fun i hi => ⟨hnd _, hprev i hi⟩)
    refine ⟨?_, ?_⟩
    · intro hpos
      obtain ⟨n, hn⟩ : ∃ n, maxAttempts.toNat = n + 1 := ⟨maxAttempts.toNat - 1, by omega⟩
      rw [hrun, hn]
      exact ⟨rfl, lastErr_succ_ne_none _ _ _ ctx w0 n (hprev n (by omega))⟩
    · rw [hrun]
      show invocations (start maxAttempts.toNat).trace = _
      rw [attemptStart_trace u b c ctx w0 _ hprev, invocations_append, invocations_rounds]
  · intro hle
    have h0 : maxAttempts.toNat = 0 := by omega
    have hrun : run = (none, w0) := by
      show ((NewTask (tracedTask u)).Retry maxAttempts (tracedBackoff b)
        (pureCondition c)).Run ctx w0 = _
      rw [retry_run_eq, h0]
      rfl
    exact ⟨hrun, by rw [hrun]⟩

/-- Witness of C1: with five attempts the body that fails twice and then
succeeds is invoked three times and `Run` returns no error; when its error is
one the condition rejects, it is invoked once and `Run` returns that error. -/
theorem retry_run_attempts_witness :
    ((((NewTask (tracedTask exFlaky)).Retry 5 (tracedBackoff exBackoff)
        (pureCondition exAlways)).Run Background exWorld).1 = none ∧
      invocations (((NewTask (tracedTask exFlaky)).Retry 5 (tracedBackoff exBackoff)
        (pureCondition exAlways)).Run Background exWorld).2.trace = 3) ∧
    ((((NewTask (tracedTask exFlaky)).Retry 5 (tracedBackoff exBackoff)
        (pureCondition exNotOne)).Run Background exWorld).1 = some (Error.app 1) ∧
      invocations (((NewTask (tracedTask exFlaky)).Retry 5 (tracedBackoff exBackoff)
        (pureCondition exNotOne)).Run Background exWorld).2.trace = 1) := by
  have h := (retry_run_attempts exFlaky exBackoff exAlways 5 Background rfl exWorld).1 2
    (by decide) (by decide) (by decide)
  have k := (retry_run_attempts exFlaky exBackoff exNotOne 5 Background rfl exWorld).1 0
    (by decide) (by decide) (by decide)
  exact ⟨⟨by rw [h.1]; decide, by rw [h.2]; decide⟩, ⟨by rw [k.1]; decide, by rw [k.2]; decide⟩⟩

/-- C4: the retry loop checks cancellation before each attempt. When the
context is found cancelled as attempt `k < maxAttempts` is about to start,
the attempts before it having run and failed with errors that are retried,
`Run` returns the context's error and the task was invoked `k` times. For
`k = 0`: under a context cancelled before `Run`, the task is not invoked. -/
theorem retry_run_context_cancelled {σ : Type} (u : Body σ) (b : Int → Int) (c : Error → Bool)
    (maxAttempts : Int) (ctx : Context) (w0 : World σ) :
    let run := ((NewTask (tracedTask u)).Retry maxAttempts (tracedBackoff b)
      (pureCondition c)).Run ctx w0
    let start := attemptStart (tracedTask u) (tracedBackoff b) (pureCondition c) ctx w0
    let again := fun k => retryable (tracedTask u) (pureCondition c) ctx (start k)
    (∀ k : Nat, (k : Int) < maxAttempts →
        (∀ i, i < k → ctx.isDone (start i).now = false ∧ again i = true) →
        ctx.isDone (start k).now = true →
        run = (ctx.Err (start k).now, start k) ∧ run.1 = some ctx.cause ∧
        invocations run.2.trace = invocations w0.trace + k) ∧
    (1 ≤ maxAttempts → ctx.isDone w0.now = true →
        run = (some ctx.cause, w0) ∧ invocations run.2.trace = invocations w0.trace) := by
  intro run start again
  have key : ∀ k : Nat, (k : Int) < maxAttempts →
      (∀ i, i < k → ctx.isDone (start i).now = false ∧ again i = true) →
      ctx.isDone (start k).now = true → run = (some ctx.cause, start k) :=
    fun k hk hprev hd => retry_run_cancelled _ _ _ maxAttempts ctx w0 k hk hprev hd
  refine ⟨?_, ?_⟩
  · intro k hk hprev hd
    have hrun := key k hk hprev hd
    refine ⟨?_, ?_, ?_⟩
    · rw [hrun]
      simp [Context.Err, hd]
    · rw [hrun]
    · rw [hrun]
      show invocations (start k).trace = _
      rw [attemptStart_trace u b c ctx w0 k (fun i hi => (hprev i hi).2), invocations_append,
        invocations_rounds]
  · intro hpos hd
    have hrun := key 0 (by omega) (fun i hi => absurd hi (Nat.not_lt_zero i)) hd
    exact ⟨hrun, by rw [hrun]; rfl⟩

/-- Witness of C4: under a context cancelled at instant `12`, the body that
always fails is invoked twice (the third attempt would start at `20`) and
`Run` returns `context.Canceled`. -/
theorem retry_run_context_cancelled_witness :
    (((NewTask (tracedTask exFailing)).Retry 3 (tracedBackoff exBackoff)
        (pureCondition exAlways)).Run exCancelledAt12 exWorld).1 = some Error.canceled ∧
    invocations (((NewTask (tracedTask exFailing)).Retry 3 (tracedBackoff exBackoff)
        (pureCondition exAlways)).Run exCancelledAt12 exWorld).2.trace = 2 := by
  have h := (retry_run_context_cancelled exFailing exBackoff exAlways 3 exCancelledAt12
    exWorld).1 2 (by decide) (by decide) (by decide)
  exact ⟨h.2.1, by rw [h.2.2]; decide⟩

theorem retryStep_traced {σ : Type} (u : Body σ) (b : Int → Int) (c : Error → Bool)
    (ctx : Context) (i : Int) (w : World σ)
    (hr : retryable (tracedTask u) (pureCondition c) ctx w = true) :
    retryStep (tracedTask u) (tracedBackoff b) (pureCondition c) ctx i w
      = Sleep (b i) (tracedBackoff b i (tracedTask u ctx w).2).2 := by
  rcases h : (u ctx w.now w.user).1 with _ | e
  · simp [retryable, tracedTask, h] at hr
  · simp [retryStep, tracedTask, tracedBackoff, pureCondition, h]

/-- C10: during one `Run` of the retry decorator under a context that is never
cancelled, the backoff function is called once after each attempt that fails
with an error that is retried, with that attempt's index, in increasing
order, and not after the attempt that leaves the loop by a success or an
error that is not retried. When all `maxAttempts` attempts fail with errors
that are retried, the last attempt is followed by a call of the backoff
function and a sleep as well: backoff is called with `0 .. maxAttempts - 1`
and `Run` sleeps `backoff(i)` for every `i < maxAttempts`. -/
theorem retry_run_backoff_calls {σ : Type} (u : Body σ) (b : Int → Int) (c : Error → Bool)
    (maxAttempts : Int) (ctx : Context) (hctx : ctx.doneAt = none) (w0 : World σ) :
    let run := ((NewTask (tracedTask u)).Retry maxAttempts (tracedBackoff b)
      (pureCondition c)).Run ctx w0
    let start := attemptStart (tracedTask u) (tracedBackoff b) (pureCondition c) ctx w0
    let again := fun k => retryable (tracedTask u) (pureCondition c) ctx (start k)
    (∀ j : Nat, (j : Int) < maxAttempts → (∀ i, i < j → again i = true) → again j = false →
        run.2.trace = w0.trace ++ rounds b j ++ [Event.invoke] ∧
        backoffCalls run.2.trace = backoffCalls w0.trace ++ (List.range j).map (fun i => (i : Int)) ∧
        sleeps run.2.trace = sleeps w0.trace ++ (List.range j).map (fun i => b (i : Int))) ∧
    ((∀ i : Nat, (i : Int) < maxAttempts → again i = true) →
        run.2.trace = w0.trace ++ rounds b maxAttempts.toNat ∧
        backoffCalls run.2.trace
          = backoffCalls w0.trace ++ (List.range maxAttempts.toNat).map (fun i => (i : Int)) ∧
        sleeps run.2.trace
          = sleeps w0.trace ++ (List.range maxAttempts.toNat).map (fun i => b (i : Int)) ∧
        (0 < maxAttempts →
          run.2 = Sleep (b (maxAttempts - 1)) (tracedBackoff b (maxAttempts - 1)
            (tracedTask u ctx (start (maxAttempts.toNat - 1))).2).2)) := by
  intro run start again
  have hnd : ∀ t, ctx.isDone t = false := isDone_of_never ctx hctx
  refine ⟨?_, ?_⟩
  · intro j hj hprev hstop
    have hrun : run = tracedTask u ctx (start j) := by
      show ((NewTask (tracedTask u)).Retry maxAttempts (tracedBackoff b)
        (pureCondition c)).Run ctx w0 = _
      rw [retry_run_stops _ _ _ maxAttempts ctx w0 j hj (fun i hi => ⟨hnd _, hprev i hi⟩)
        (hnd _) hstop, attemptEnd_traced]
    have htr : run.2.trace = w0.trace ++ rounds b j ++ [Event.invoke] := by
      rw [hrun, tracedTask_trace]
      show (start j).trace ++ _ = _
      rw [attemptStart_trace u b c ctx w0 j hprev]
    refine ⟨htr, ?_, ?_⟩
    · rw [htr, backoffCalls_append, backoffCalls_append, backoffCalls_rounds]
      simp [backoffCalls]
    · rw [htr, sleeps_append, sleeps_append, sleeps_rounds]
      simp [sleeps]
  · intro hall
    have hprev : ∀ i, i < maxAttempts.toNat → again i = true := fun i hi => hall i (by omega)
    have hrun : run = (lastErr (tracedTask u) (tracedBackoff b) (pureCondition c) ctx w0
        maxAttempts.toNat, start maxAttempts.toNat) :=
      retry_run_exhausts _ _ _ maxAttempts ctx w0 (fun i hi => ⟨hnd _, hprev i hi⟩)
    have htr : run.2.trace = w0.trace ++ rounds b maxAttempts.toNat := by
      rw [hrun]
      exact attemptStart_trace u b c ctx w0 _ hprev
    refine ⟨htr, ?_, ?_, ?_⟩
    · rw [htr, backoffCalls_append, backoffCalls_rounds]
    · rw [htr, sleeps_append, sleeps_rounds]
    · intro hpos
      obtain ⟨n, hn⟩ : ∃ n, maxAttempts.toNat = n + 1 := ⟨maxAttempts.toNat - 1, by omega⟩
      have hidx : maxAttempts - 1 = (n : Int) := by omega
      rw [hrun, hn, hidx]
      exact retryStep_traced u b c ctx (n : Int) (start n) (hprev n (by omega))

/-- Witness of C10: three attempts of the body that always fails call the
backoff function with `0, 1, 2` and sleep `0, 10, 20`. -/
theorem retry_run_backoff_calls_witness :
    backoffCalls (((NewTask (tracedTask exFailing)).Retry 3 (tracedBackoff exBackoff)
        (pureCondition exAlways)).Run Background exWorld).2.trace = [0, 1, 2] ∧
    sleeps (((NewTask (tracedTask exFailing)).Retry 3 (tracedBackoff exBackoff)
        (pureCondition exAlways)).Run Background exWorld).2.trace = [0, 10, 20] := by
  have h := (retry_run_backoff_calls exFailing exBackoff exAlways 3 Background rfl exWorld).2
    (fun i hi => by
      have h3 : i < 3 := by omega
      interval_cases i <;> decide)
  exact ⟨by rw [h.2.1]; decide, by rw [h.2.2.1]; decide⟩

/-! ## The completion decorator -/

/-- C3: `Run` of `chain.WithCompletion(onSuccess, onFailure)` invokes the
wrapped unit once and returns its result unchanged. After a failure with `e`
the failure hook, when present, is called once with `e` and the success hook
is not called; after a success the success hook, when present, is called once
and the failure hook is not called; an absent hook does nothing. -/
theorem withCompletion_run_hooks {σ : Type} (u : Body σ) (s : Option (σ → σ))
    (f : Option (Error → σ → σ)) (ctx : Context) (w0 : World σ) :
    let inner := tracedTask u ctx w0
    let run := ((NewTask (tracedTask u)).WithCompletion (s.map tracedSuccess)
      (f.map tracedFailure)).Run ctx w0
    run.1 = inner.1 ∧ run.2.now = inner.2.now ∧
    (∀ e, inner.1 = some e →
      run.2.trace = w0.trace ++ Event.invoke :: (if f.isSome then [Event.failure e] else []) ∧
      run.2.user = (match f with
        | some g => g e inner.2.user
        | none => inner.2.user)) ∧
    (inner.1 = none →
      run.2.trace = w0.trace ++ Event.invoke :: (if s.isSome then [Event.success] else []) ∧
      run.2.user = (match s with
        | some g => g inner.2.user
        | none => inner.2.user)) := by
  intro inner run
  rcases h : (u ctx w0.now w0.user).1 with _ | e
  · cases s <;> cases f <;>
      simp [run, inner, Task.Run, Task.WithCompletion, NewTask, withCompletion, tracedTask,
        tracedSuccess, tracedFailure, h]
  · cases s <;> cases f <;>
      simp [run, inner, Task.Run, Task.WithCompletion, NewTask, withCompletion, tracedTask,
        tracedSuccess, tracedFailure, h]

/-- Witness of C3: the body that succeeds at once, completed with a success
hook only, returns no error and the trace holds one call of the unit followed
by one call of the success hook. -/
theorem withCompletion_run_hooks_witness :
    (((NewTask (tracedTask exQuick)).WithCompletion
        ((some fun n => n + 10).map tracedSuccess)
        ((none : Option (Error → Nat → Nat)).map tracedFailure)).Run Background exWorld).2.trace
      = [Event.invoke, Event.success] := by
  have h := (withCompletion_run_hooks exQuick (some fun n => n + 10) none Background
    exWorld).2.2.2 rfl
  exact h.1

/-! ## The timeout decorator -/

theorem withTimeout_doneAt (parent : Context) (now dur : Int) :
    ∃ td, (WithTimeout parent now dur).doneAt = some td ∧ td ≤ now + dur ∧
      (td = now + dur ∨ parent.doneAt = some td) := by
  unfold WithTimeout
  rcases h : parent.doneAt with _ | t
  · exact ⟨now + dur, rfl, le_refl _, Or.inl rfl⟩
  · by_cases hle : t ≤ now + dur
    · exact ⟨t, by simp [hle], hle, Or.inr rfl⟩
    · exact ⟨now + dur, by simp [hle], le_refl _, Or.inl rfl⟩

theorem timeout_of_done_first {σ : Type} (task : TaskFunc σ) (dur : Int) (ctx : Context)
    (w : World σ) (td : Int) (hd : (WithTimeout ctx w.now dur).doneAt = some td)
    (h : max w.now td < (task (WithTimeout ctx w.now dur) w).2.now) :
    (timeout task dur ctx w).1 = some Error.taskTimeout := by
  simp only [timeout, hd]
  rw [if_neg (not_lt_of_gt h), if_pos h]

theorem timeout_of_task_first {σ : Type} (task : TaskFunc σ) (dur : Int) (ctx : Context)
    (w : World σ) (td : Int) (hd : (WithTimeout ctx w.now dur).doneAt = some td)
    (h : (task (WithTimeout ctx w.now dur) w).2.now < td) :
    timeout task dur ctx w = task (WithTimeout ctx w.now dur) w := by
  simp only [timeout, hd]
  rw [if_pos (lt_of_lt_of_le h (le_max_right _ _))]

/-- C2 fails as stated: under `Timeout(-1)` the deadline has elapsed before
the unit completes, yet for a unit that has completed when `Run` reaches the
`select` both cases are ready, and when the `select` takes the unit's result
`Run` returns no error. -/
theorem timeout_run_race_counterexample :
    exWorld.now + (-1)
      < (tracedTask exQuick (WithTimeout Background exWorld.now (-1)) exWorld).2.now ∧
    (((NewTask (tracedTask exQuick)).Timeout (-1)).Run Background exWorld).1 = none ∧
    (((NewTask (tracedTask exQuick)).Timeout (-1)).Run Background exWorld).1
      ≠ some Error.taskTimeout := by
  decide

/-- C2 as amended: `Run` of `NewTask(task).Timeout(d)` returns the result of
the wrapped unit verbatim when the unit completes before the deadline `d`
elapses and before the outer context is cancelled; when the deadline elapses
before the unit completes and the unit has not completed as `Run` starts to
wait (which is so for every `d ≥ 0`), it returns the non-nil error
`task timeout`, whatever the unit returns in the end. -/
theorem timeout_run_race {σ : Type} (task : TaskFunc σ) (d : Int) (ctx : Context)
    (w : World σ) :
    let inner := task (WithTimeout ctx w.now d) w
    let run := ((NewTask task).Timeout d).Run ctx w
    (inner.2.now < w.now + d → (∀ t, ctx.doneAt = some t → inner.2.now < t) → run = inner) ∧
    (w.now + d < inner.2.now → w.now < inner.2.now →
      run.1 = some Error.taskTimeout ∧ run.1 ≠ none) ∧
    (0 ≤ d → w.now + d < inner.2.now → run.1 = some Error.taskTimeout ∧ run.1 ≠ none) := by
  intro inner run
  obtain ⟨td, hd, hle, hor⟩ := withTimeout_doneAt ctx w.now d
  have key : w.now + d < inner.2.now → w.now < inner.2.now →
      run.1 = some Error.taskTimeout ∧ run.1 ≠ none := by
    intro h1 h2
    have hlt : max w.now td < inner.2.now := max_lt h2 (lt_of_le_of_lt hle h1)
    have hrun : run.1 = some Error.taskTimeout := timeout_of_done_first task d ctx w td hd hlt
    exact ⟨hrun, by rw [hrun]; exact Option.some_ne_none _⟩
  refine ⟨?_, key, ?_⟩
  · intro h1 h2
    have hlt : inner.2.now < td := by
      rcases hor with h | h
      · rw [h]; exact h1
      · exact h2 td h
    exact timeout_of_task_first task d ctx w td hd hlt
  · intro h0 h1
    exact key h1 (by omega)

/-- Witness of amended C2: the unit that succeeds after 100 yields
`task timeout` under `Timeout(50)`, and the unit that succeeds at once yields
no error. -/
theorem timeout_run_race_witness :
    (((NewTask (tracedTask exSlow)).Timeout 50).Run Background exWorld).1
      = some Error.taskTimeout ∧
    (((NewTask (tracedTask exQuick)).Timeout 50).Run Background exWorld).1 = none :=
  ⟨((timeout_run_race (tracedTask exSlow) 50 Background exWorld).2.1 (by decide)
      (by decide)).1,
    congrArg Prod.fst ((timeout_run_race (tracedTask exQuick) 50 Background exWorld).1
      (by decide) (fun _ h => nomatch h))⟩

/-- C6 fails as stated: under `Timeout(500)` with an outer context cancelled
at instant `12`, before the unit completes (at `100`) and before the deadline
(`500`), `Run` returns `task timeout` and not the outer context's error
`context.Canceled`. -/
theorem timeout_run_outer_cancel_counterexample :
    exCancelledAt12.doneAt = some 12 ∧
    (12 : Int) < (tracedTask exSlow (WithTimeout exCancelledAt12 exWorld.now 500) exWorld).2.now ∧
    (12 : Int) < exWorld.now + 500 ∧
    exCancelledAt12.Err 12 = some Error.canceled ∧
    (((NewTask (tracedTask exSlow)).Timeout 500).Run exCancelledAt12 exWorld).1
      ≠ exCancelledAt12.Err 12 ∧
    (((NewTask (tracedTask exSlow)).Timeout 500).Run exCancelledAt12 exWorld).1
      = some Error.taskTimeout := by
  decide

/-- C6 as amended: when the outer context is cancelled before the wrapped
unit completes and before the deadline elapses, and the unit has not
completed as `Run` starts to wait, `Run` of `chain.Timeout(d)` returns the
same error `task timeout` as when the deadline elapses. The result of the
decorator is always the result of the unit or that error. -/
theorem timeout_run_outer_cancel {σ : Type} (task : TaskFunc σ) (d : Int) (ctx : Context)
    (w : World σ) :
    let inner := task (WithTimeout ctx w.now d) w
    let run := ((NewTask task).Timeout d).Run ctx w
    (∀ t, ctx.doneAt = some t → t < inner.2.now → t < w.now + d → w.now < inner.2.now →
      run.1 = some Error.taskTimeout) ∧
    (run.1 = inner.1 ∨ run.1 = some Error.taskTimeout) := by
  intro inner run
  refine ⟨?_, ?_⟩
  · intro t ht h1 h2 h3
    have hd : (WithTimeout ctx w.now d).doneAt = some t := by
      simp [WithTimeout, ht, le_of_lt h2]
    exact timeout_of_done_first task d ctx w t hd (max_lt h3 h1)
  · obtain ⟨td, hd, -, -⟩ := withTimeout_doneAt ctx w.now d
    show (timeout task d ctx w).1 = _ ∨ (timeout task d ctx w).1 = _
    simp only [timeout, hd]
    split_ifs <;> simp [inner]

/-- Witness of amended C6: the counterexample's run returns `task timeout`. -/
theorem timeout_run_outer_cancel_witness :
    (((NewTask (tracedTask exSlow)).Timeout 500).Run exCancelledAt12 exWorld).1
      = some Error.taskTimeout :=
  (timeout_run_outer_cancel (tracedTask exSlow) 500 exCancelledAt12 exWorld).1 12 rfl
    (by decide) (by decide) (by decide)

/-! ## The chain builder -/

theorem foldl_apply_taskFunc {σ : Type} (ds : List (Decorator σ)) (t : Task σ) :
    (ds.foldl Task.apply t).taskFunc = nest t.taskFunc ds := by
  induction ds generalizing t with
  | nil => rfl
  | cons d ds ih =>
    rw [List.foldl_cons, ih]
    cases d <;> rfl

section HookOrder

variable {σ : Type} (u : Body σ) (b : Int → Int) (c : Error → Bool) (s : Option (σ → σ))
  (f : Error → σ → σ) (ctx : Context)

theorem retryable_of_always_fails
    (hu : ∀ (x : Context) (t : Int) (a : σ), ∃ e, (u x t a).1 = some e ∧ c e = true)
    (w : World σ) : retryable (tracedTask u) (pureCondition c) ctx w = true := by
  obtain ⟨e, he, hc⟩ := hu ctx w.now w.user
  simp [retryable, tracedTask, pureCondition, he, hc]

theorem completed_retryable_of_always_fails
    (hu : ∀ (x : Context) (t : Int) (a : σ), ∃ e, (u x t a).1 = some e ∧ c e = true)
    (w : World σ) :
    retryable (withCompletion (tracedTask u) (s.map tracedSuccess) (some (tracedFailure f)))
      (pureCondition c) ctx w = true := by
  obtain ⟨e, he, hc⟩ := hu ctx w.now w.user
  simp [retryable, withCompletion, tracedTask, pureCondition, he, hc]

theorem completed_retryStep_failureCalls
    (hu : ∀ (x : Context) (t : Int) (a : σ), ∃ e, (u x t a).1 = some e ∧ c e = true)
    (i : Int) (w : World σ) :
    (failureCalls (retryStep
      (withCompletion (tracedTask u) (s.map tracedSuccess) (some (tracedFailure f)))
      (tracedBackoff b) (pureCondition c) ctx i w).trace).length
      = (failureCalls w.trace).length + 1 := by
  obtain ⟨e, he, hc⟩ := hu ctx w.now w.user
  simp [retryStep, withCompletion, tracedTask, tracedBackoff, tracedFailure, pureCondition,
    Sleep, he, failureCalls_append, failureCalls]

theorem completed_attemptStart_failureCalls
    (hu : ∀ (x : Context) (t : Int) (a : σ), ∃ e, (u x t a).1 = some e ∧ c e = true)
    (w0 : World σ) (k : Nat) :
    (failureCalls (attemptStart
      (withCompletion (tracedTask u) (s.map tracedSuccess) (some (tracedFailure f)))
      (tracedBackoff b) (pureCondition c) ctx w0 k).trace).length
      = (failureCalls w0.trace).length + k := by
  induction k with
  | zero => rfl
  | succ k ih =>
    rw [attemptStart, completed_retryStep_failureCalls u b c s f ctx hu, ih, Nat.add_assoc]

theorem retryLoop_always_fails
    (hu : ∀ (x : Context) (t : Int) (a : σ), ∃ e, (u x t a).1 = some e ∧ c e = true)
    (n : Nat) (i : Int) (err : Option Error) (w : World σ) (herr : n = 0 → err ≠ none) :
    (retryLoop (tracedTask u) (tracedBackoff b) (pureCondition c) ctx n i err w).1 ≠ none ∧
    failureCalls (retryLoop (tracedTask u) (tracedBackoff b) (pureCondition c) ctx n i err
      w).2.trace = failureCalls w.trace := by
  induction n generalizing i err w with
  | zero => exact ⟨herr rfl, rfl⟩
  | succ n ih =>
    by_cases hd : ctx.isDone w.now = true
    · rw [retryLoop_done _ _ _ ctx n i err w hd]
      exact ⟨Option.some_ne_none _, rfl⟩
    · have hd2 : ctx.isDone w.now = false := by simpa using hd
      have hr := retryable_of_always_fails u c ctx hu w
      rw [retryLoop_again _ _ _ ctx n i err w hd2 hr]
      obtain ⟨e, he, -⟩ := hu ctx w.now w.user
      have hne : (tracedTask u ctx w).1 ≠ none := by
        show (u ctx w.now w.user).1 ≠ none
        rw [he]
        exact Option.some_ne_none _
      have h := ih (i + 1) (tracedTask u ctx w).1
        (retryStep (tracedTask u) (tracedBackoff b) (pureCondition c) ctx i w) (fun _ => hne)
      refine ⟨h.1, ?_⟩
      rw [h.2, retryStep_trace u b c ctx i w hr, failureCalls_append]
      simp [failureCalls]

end HookOrder

/-- C5 fails as stated: the claim puts no condition on the context, yet for
the body that always fails and three attempts, `WithCompletion` followed by
`Retry` calls the failure hook twice under a context cancelled at instant
`12` and not at all under a context cancelled at instant `0`, not three
times. -/
theorem chain_run_nesting_counterexample :
    (∀ (x : Context) (t : Int) (a : Nat),
      ∃ e, (exFailing x t a).1 = some e ∧ exAlways e = true) ∧
    (failureCalls ((((NewTask (tracedTask exFailing)).WithCompletion
        ((none : Option (Nat → Nat)).map tracedSuccess)
        (some (tracedFailure fun _ a => a))).Retry 3 (tracedBackoff exBackoff)
        (pureCondition exAlways)).Run exCancelledAt12 exWorld).2.trace).length = 2 ∧
    (failureCalls ((((NewTask (tracedTask exFailing)).WithCompletion
        ((none : Option (Nat → Nat)).map tracedSuccess)
        (some (tracedFailure fun _ a => a))).Retry 3 (tracedBackoff exBackoff)
        (pureCondition exAlways)).Run exCancelledAt0 exWorld).2.trace).length = 0 ∧
    (failureCalls ((((NewTask (tracedTask exFailing)).WithCompletion
        ((none : Option (Nat → Nat)).map tracedSuccess)
        (some (tracedFailure fun _ a => a))).Retry 3 (tracedBackoff exBackoff)
        (pureCondition exAlways)).Run exCancelledAt12 exWorld).2.trace).length
      ≠ (failureCalls exWorld.trace).length + (3 : Int).toNat :=
  ⟨fun _ _ a => ⟨Error.app a, rfl, rfl⟩, by decide, by decide, by decide⟩

/-- C5 as amended: `Run` of a chain built from `NewTask(u)` by any sequence of
the chain methods `Timeout`, `Retry` and `WithCompletion` is the run of the
decorators nested around `u` in application order, the last applied
outermost, and `NewTask(u).Run(ctx)` is `u(ctx)`. So, for a unit that always
fails with an error that is retried and `n ≥ 1` attempts, `Retry` followed by
`WithCompletion` calls the failure hook once, and, under a context that is
never cancelled, `WithCompletion` followed by `Retry` calls it `n` times. -/
theorem chain_run_nesting {σ : Type} :
    (∀ (t : TaskFunc σ) (ds : List (Decorator σ)) (ctx : Context) (w : World σ),
      (ds.foldl Task.apply (NewTask t)).Run ctx w = nest t ds ctx w ∧
      (NewTask t).Run ctx w = t ctx w) ∧
    (∀ (u : Body σ) (b : Int → Int) (c : Error → Bool) (s : Option (σ → σ))
      (f : Error → σ → σ) (n : Int) (ctx : Context) (w0 : World σ),
      (∀ (x : Context) (t : Int) (a : σ), ∃ e, (u x t a).1 = some e ∧ c e = true) →
      1 ≤ n →
      (failureCalls ((((NewTask (tracedTask u)).Retry n (tracedBackoff b)
          (pureCondition c)).WithCompletion (s.map tracedSuccess)
          (some (tracedFailure f))).Run ctx w0).2.trace).length
        = (failureCalls w0.trace).length + 1 ∧
      (ctx.doneAt = none →
        (failureCalls ((((NewTask (tracedTask u)).WithCompletion (s.map tracedSuccess)
            (some (tracedFailure f))).Retry n (tracedBackoff b)
            (pureCondition c)).Run ctx w0).2.trace).length
          = (failureCalls w0.trace).length + n.toNat)) := by
  refine ⟨?_, ?_⟩
  · intro t ds ctx w
    refine ⟨?_, rfl⟩
    show (ds.foldl Task.apply (NewTask t)).taskFunc ctx w = _
    rw [foldl_apply_taskFunc]
    rfl
  · intro u b c s f n ctx w0 hu hn
    refine ⟨?_, ?_⟩
    · have hloop := retryLoop_always_fails u b c ctx hu n.toNat 0 none w0
        (fun h0 => absurd h0 (by omega))
      rcases hr : retryLoop (tracedTask u) (tracedBackoff b) (pureCondition c) ctx n.toNat 0
        none w0 with ⟨_ | e, w1⟩
      · rw [hr] at hloop
        exact absurd rfl hloop.1
      · rw [hr] at hloop
        have htr : failureCalls w1.trace = failureCalls w0.trace := hloop.2
        have hinner : retry (tracedTask u) n (tracedBackoff b) (pureCondition c) ctx w0
            = (some e, w1) := hr
        show (failureCalls (withCompletion (retry (tracedTask u) n (tracedBackoff b)
          (pureCondition c)) (s.map tracedSuccess) (some (tracedFailure f)) ctx
          w0).2.trace).length = _
        simp only [withCompletion, hinner, tracedFailure]
        simp [failureCalls_append, failureCalls, htr]
    · intro hctx
      have hnd : ∀ t, ctx.isDone t = false := isDone_of_never ctx hctx
      have hrun := retry_run_exhausts
        (withCompletion (tracedTask u) (s.map tracedSuccess) (some (tracedFailure f)))
        (tracedBackoff b) (pureCondition c) n ctx w0
        (fun i _ => ⟨hnd _, completed_retryable_of_always_fails u c s f ctx hu _⟩)
      have hrun2 : (((NewTask (tracedTask u)).WithCompletion (s.map tracedSuccess)
          (some (tracedFailure f))).Retry n (tracedBackoff b) (pureCondition c)).Run ctx w0
          = _ := hrun
      rw [hrun2]
      exact completed_attemptStart_failureCalls u b c s f ctx hu w0 n.toNat

/-- Witness of amended C5: for the body that always fails and three attempts,
the failure hook is called once when the completion is applied after the
retry and three times when it is applied before. -/
theorem chain_run_nesting_witness :
    (failureCalls ((((NewTask (tracedTask exFailing)).Retry 3 (tracedBackoff exBackoff)
        (pureCondition exAlways)).WithCompletion ((none : Option (Nat → Nat)).map tracedSuccess)
        (some (tracedFailure fun _ a => a))).Run Background exWorld).2.trace).length = 0 + 1 ∧
    (failureCalls ((((NewTask (tracedTask exFailing)).WithCompletion
        ((none : Option (Nat → Nat)).map tracedSuccess)
        (some (tracedFailure fun _ a => a))).Retry 3 (tracedBackoff exBackoff)
        (pureCondition exAlways)).Run Background exWorld).2.trace).length = 0 + 3 :=
  have h := (@chain_run_nesting Nat).2 exFailing exBackoff exAlways none (fun _ a => a) 3
    Background exWorld (fun _ _ a => ⟨Error.app a, rfl, rfl⟩) (by decide)
  ⟨h.1, h.2 rfl⟩

/-! ## The periodic scheduler -/

theorem parseSixField_of_length_ne (fieldOk : Nat → List Char → Bool) (spec : String)
    (h : (splitFields spec.data []).length ≠ 6) :
    parseSixField fieldOk spec = Except.error Error.scheduleParse := by
  simp [parseSixField, h]

theorem parseSixField_not_a_cron (fieldOk : Nat → List Char → Bool) :
    parseSixField fieldOk "not-a-cron" = Except.error Error.scheduleParse :=
  parseSixField_of_length_ne fieldOk _ (by decide)

theorem parseSixField_five_stars (fieldOk : Nat → List Char → Bool) :
    parseSixField fieldOk "* * * * *" = Except.error Error.scheduleParse :=
  parseSixField_of_length_ne fieldOk _ (by decide)

theorem runWithCron_ok {σ : Type} (parse : String → Except Error Schedule) (t : Task σ)
    (ctx : Context) (cronExpr : String) (sch : Schedule) (h : parse cronExpr = Except.ok sch) :
    t.RunWithCron parse ctx cronExpr
      = ⟨none, { t with cron := some ⟨CronState.running,
          [⟨sch, fun w => (t.taskFunc ctx w).2⟩]⟩ }, some ctx⟩ := by
  simp [Task.RunWithCron, Cron.AddFunc, Cron.New, Cron.Start, h]

/-- Six wildcard fields are accepted by the six-field parser whenever the
engine accepts a wildcard in every field: the scheduler runs until `StopCron`
and each trigger calls the composed unit. -/
theorem runWithCron_six_stars {σ : Type} (t : Task σ) (ctx : Context) (w : World σ) :
    (t.RunWithCron (parseSixField exStarField) ctx "* * * * * *").err = none ∧
    (t.RunWithCron (parseSixField exStarField) ctx "* * * * * *").task.cronRunning = true ∧
    (t.RunWithCron (parseSixField exStarField) ctx "* * * * * *").task.trigger w
      = (t.taskFunc ctx w).2 ∧
    (t.RunWithCron (parseSixField exStarField) ctx "* * * * * *").task.StopCron.cronRunning
      = false := by
  have h : parseSixField exStarField "* * * * * *"
      = Except.ok ⟨[['*'], ['*'], ['*'], ['*'], ['*'], ['*']]⟩ := by
    rfl
  rw [runWithCron_ok _ t ctx _ _ h]
  refine ⟨rfl, rfl, rfl, rfl⟩

/-- C7: for a schedule expression the cron parser rejects, `RunWithCron`
returns the parse error, the scheduler handle it created is never started (it
is left `Unstarted`, with no entry, and no goroutine watching the context is
launched), and the composed unit is not invoked: no pass of the trigger loop
changes the world. -/
theorem runWithCron_rejected {σ : Type} (parse : String → Except Error Schedule) (t : Task σ)
    (ctx : Context) (cronExpr : String) (e : Error) (h : parse cronExpr = Except.error e) :
    (t.RunWithCron parse ctx cronExpr).err = some e ∧
    (t.RunWithCron parse ctx cronExpr).task.cron = some ⟨CronState.unstarted, []⟩ ∧
    (t.RunWithCron parse ctx cronExpr).task.cronRunning = false ∧
    (t.RunWithCron parse ctx cronExpr).watcher = none ∧
    (t.RunWithCron parse ctx cronExpr).task.taskFunc = t.taskFunc ∧
    (∀ (n : Nat) (w : World σ),
      ((t.RunWithCron parse ctx cronExpr).task.trigger)^[n] w = w) := by
  have hr : t.RunWithCron parse ctx cronExpr
      = ⟨some e, { t with cron := some Cron.New }, none⟩ := by
    simp [Task.RunWithCron, Cron.AddFunc, h]
  rw [hr]
  refine ⟨rfl, rfl, rfl, rfl, rfl, ?_⟩
  intro n w
  induction n with
  | zero => rfl
  | succ n ih =>
    rw [Function.iterate_succ_apply]
    exact ih

/-- Witness of C7: `"not-a-cron"` is rejected by the six-field parser, so
`RunWithCron` returns the parse error and launches no watcher. -/
theorem runWithCron_rejected_witness :
    ((NewTask (tracedTask exQuick)).RunWithCron (parseSixField exAnyField) Background
        "not-a-cron").err = some Error.scheduleParse ∧
    ((NewTask (tracedTask exQuick)).RunWithCron (parseSixField exAnyField) Background
        "not-a-cron").watcher = none :=
  have h := runWithCron_rejected (parseSixField exAnyField) (NewTask (tracedTask exQuick))
    Background "not-a-cron" Error.scheduleParse (parseSixField_not_a_cron exAnyField)
  ⟨h.1, h.2.2.2.1⟩

/-- C8 at the input of the repository's test: the five-field expression
`"* * * * *"` is rejected by the six-field parser whatever the engine accepts
in a field, so `RunWithCron` returns a parse error and the scheduler is not
running. -/
theorem runWithCron_five_stars {σ : Type} (fieldOk : Nat → List Char → Bool) (t : Task σ)
    (ctx : Context) :
    (t.RunWithCron (parseSixField fieldOk) ctx "* * * * *").err = some Error.scheduleParse ∧
    (t.RunWithCron (parseSixField fieldOk) ctx "* * * * *").task.cronRunning = false := by
  have hr : t.RunWithCron (parseSixField fieldOk) ctx "* * * * *"
      = ⟨some Error.scheduleParse, { t with cron := some Cron.New }, none⟩ := by
    simp [Task.RunWithCron, Cron.AddFunc, parseSixField_five_stars]
  rw [hr]
  exact ⟨rfl, rfl⟩

/-- C9: `StopCron` on a chain without a scheduler handle changes nothing;
calling it twice leaves the chain as calling it once does; after `StopCron`
the handle, if any, is not `Running`, and a `Stopped` handle stays as it
is. -/
theorem stopCron_idempotent {σ : Type} (t : Task σ) :
    (t.cron = none → t.StopCron = t) ∧
    t.StopCron.StopCron = t.StopCron ∧
    t.StopCron.cronRunning = false ∧
    (∀ c, t.StopCron.cron = some c → c.state ≠ CronState.running) ∧
    (∀ c, t.cron = some c → c.state = CronState.stopped → t.StopCron = t) ∧
    t.StopCron.taskFunc = t.taskFunc := by
  rcases t with ⟨tf, _ | ⟨st, es⟩⟩
  · refine ⟨fun _ => rfl, rfl, rfl, ?_, ?_, rfl⟩
    · intro c hc
      simp [Task.StopCron] at hc
    · intro c hc
      simp at hc
  · cases st
    · refine ⟨by simp, rfl, rfl, ?_, ?_, rfl⟩
      · intro c hc
        simp [Task.StopCron, Cron.Stop] at hc
        rw [← hc]
        simp
      · intro c hc hs
        rfl
    · refine ⟨by simp, rfl, rfl, ?_, ?_, rfl⟩
      · intro c hc
        simp [Task.StopCron, Cron.Stop] at hc
        rw [← hc]
        simp
      · intro c hc hs
        simp at hc
        rw [← hc] at hs
        simp at hs
    · refine ⟨by simp, rfl, rfl, ?_, ?_, rfl⟩
      · intro c hc
        simp [Task.StopCron, Cron.Stop] at hc
        rw [← hc]
        simp
      · intro c hc hs
        rfl

/-- Witness of C9: a chain that never started a scheduler is left unchanged
by `StopCron`. -/
theorem stopCron_idempotent_witness :
    (NewTask (tracedTask exQuick)).StopCron = NewTask (tracedTask exQuick) :=
  (stopCron_idempotent (NewTask (tracedTask exQuick))).1 rfl

end GoKit
